import Mathlib

/-!
# Shallow embedding of realm-core's `ConstDictionary` / `Dictionary`
(`src/realm/dictionary.hpp`, `src/realm/dictionary.cpp`) and of
`ClusterNode::get_real_key` (`cluster.hpp`).

A `Dictionary` is a view over two parallel `BPlusTree<Mixed>` instances,
`m_keys` and `m_values`, anchored at an object's column slot.  The backing
trees are modelled as `Option (List Mixed)`: `none` is a detached accessor
(`is_attached() == false`), `some l` an attached tree holding the sequence
`l`.  The `BPlusTree` primitives used by the dictionary code are
`find_first`, `add` (append), `set`, `erase` (by index), `clear`, `size`,
`get`, `create` and `destroy`; they are consumed through their contracts
only, exactly as `dictionary.cpp` consumes them.

`Mixed` is an external value type consumed only through its (total,
decidable) equality; we model a representative tagged union.  The allocator
and the owning object are external collaborators as well: the dictionary
reads the allocator's current content version, asks the object accessor to
refresh itself (`m_obj.update_if_needed()`, version based and idempotent),
and on staleness reloads both trees from the persisted child references
(`init_from_parent`).  `Allocator` below packages exactly this read-only
environment: the current content version, the object's current storage
version, and the two persisted child trees the parent slots refer to.
-/

/-- The value domain (`Mixed`): a tagged union consumed by the dictionary
code only through its total decidable equality.  Float/timestamp/link
payloads are omitted; they play no role in the dictionary logic. -/
inductive Mixed where
  | null : Mixed
  | bool (b : Bool) : Mixed
  | int (v : Int) : Mixed
  | str (s : String) : Mixed
deriving DecidableEq, Repr

/-- Models `BPlusTree<Mixed>::find_first(value)`: index of the first element equal
to `value`, `realm::npos` (here `none`) when there is none. -/
def find_first : List Mixed → Mixed → Option Nat
  | [], _ => none
  | x :: xs, value => if x = value then some 0 else (find_first xs value).map (· + 1)

/-- Models `BPlusTree<Mixed>::get(ndx)`.  Out-of-range access is an assertion
failure in the source; it is modelled as the default `Mixed()` (null).
Dictionary code only reaches in-range indices (see the invariants). -/
def tree_get (l : List Mixed) (ndx : Nat) : Mixed := l.getD ndx .null

/-- Read-only environment of a dictionary handle: the allocator's current
content version, the owning object accessor's current storage version, and
the persisted keys/values child trees reachable through the parent
(`get_child_ref(2*row)` / `get_child_ref(2*row+1)`); `none` models a null
ref (tree never created or destroyed). -/
structure Allocator where
  content_version : Nat
  obj_version : Nat
  parent_keys : Option (List Mixed)
  parent_values : Option (List Mixed)
deriving DecidableEq, Repr

/-- Models `ConstDictionary` handle state: the two cached tree accessors and the
cached version stamps (`m_content_version`; `m_obj_version` stands for the
owning `ConstObj` accessor's cached storage version, through which
`m_obj.update_if_needed()` reports whether the object was refreshed). -/
structure ConstDictionary where
  m_keys : Option (List Mixed)
  m_values : Option (List Mixed)
  m_content_version : Nat
  m_obj_version : Nat
deriving DecidableEq, Repr

/-- The default-constructed dictionary: both trees detached. -/
def ConstDictionary.mk0 : ConstDictionary :=
  { m_keys := none, m_values := none, m_content_version := 0, m_obj_version := 0 }

namespace ConstDictionary

/-- The key sequence held by the keys tree (empty when detached). -/
def keyList (d : ConstDictionary) : List Mixed := d.m_keys.getD []

/-- The value sequence held by the values tree (empty when detached). -/
def valList (d : ConstDictionary) : List Mixed := d.m_values.getD []

/-- Models `ConstDictionary::init_from_parent()`: reload both trees from the
persisted child references and restamp the cached content version. -/
def init_from_parent (a : Allocator) (d : ConstDictionary) : ConstDictionary :=
  { d with
    m_keys := a.parent_keys
    m_values := a.parent_values
    m_content_version := a.content_version }

/-- Models `ConstDictionary::update_if_needed()`: refresh the object accessor; if
it moved, or the allocator's content version differs from the cached one,
reinitialize both trees from the persisted child references. -/
def update_if_needed (a : Allocator) (d : ConstDictionary) : ConstDictionary :=
  let obj_updated := d.m_obj_version ≠ a.obj_version
  let d0 := { d with m_obj_version := a.obj_version }
  if obj_updated ∨ a.content_version ≠ d.m_content_version then
    init_from_parent a d0
  else
    d0

/-- Models `ConstDictionary::size()`. -/
def size (a : Allocator) (d : ConstDictionary) : Nat :=
  let d' := update_if_needed a d
  if d'.m_keys.isSome then (keyList d').length else 0

/-- Models `ConstDictionary::get(key)`; `Except.error` models the thrown
`std::out_of_range("Key not found")`. -/
def get (a : Allocator) (d : ConstDictionary) (key : Mixed) : Except String Mixed :=
  let d' := update_if_needed a d
  let m := if d'.m_keys.isSome then find_first (keyList d') key else none
  match m with
  | none => .error "Key not found"
  | some m => .ok (tree_get (valList d') m)

/-- Models `ConstDictionary::is_attached()` (note the negation in the source). -/
def is_attached (d : ConstDictionary) : Bool := !d.m_keys.isSome

/-- Models `ConstDictionary::Iterator::operator->()` at position `pos`: the pair
`(m_keys.get(pos), m_values.get(pos))`. -/
def pairAt (d : ConstDictionary) (pos : Nat) : Mixed × Mixed :=
  (tree_get (keyList d) pos, tree_get (valList d) pos)

/-- The iterator loop of `ConstDictionary::operator==`: compare the pairs
at positions `pos, pos+1, ...` for `count` steps. -/
def eqRange (d1 d2 : ConstDictionary) : Nat → Nat → Bool
  | _, 0 => true
  | pos, count + 1 =>
    if (pairAt d1 pos).1 ≠ (pairAt d2 pos).1 then false
    else if (pairAt d1 pos).2 ≠ (pairAt d2 pos).2 then false
    else eqRange d1 d2 (pos + 1) count

/-- Models `ConstDictionary::operator==`. -/
def beq (a : Allocator) (d1 d2 : ConstDictionary) : Bool :=
  if size a d1 ≠ size a d2 then false
  else eqRange (update_if_needed a d1) (update_if_needed a d2) 0 (size a d1)

/-- Models `ConstDictionary::operator!=`. -/
def bne (a : Allocator) (d1 d2 : ConstDictionary) : Bool := !beq a d1 d2

/-- The copy constructor `ConstDictionary(const ConstDictionary&)`: copies
the object anchor, column index, both tree accessors and (with them) the
cached version stamps, then re-parents the copies. -/
def copy (d : ConstDictionary) : ConstDictionary :=
  { m_keys := d.m_keys
    m_values := d.m_values
    m_content_version := d.m_content_version
    m_obj_version := d.m_obj_version }

end ConstDictionary

namespace Dictionary

open ConstDictionary

/-- Models `Dictionary::create()`: refresh, then create both trees if detached. -/
def create (a : Allocator) (d : ConstDictionary) : ConstDictionary :=
  let d' := update_if_needed a d
  if d'.m_keys.isSome then d'
  else { d' with m_keys := some [], m_values := some [] }

/-- Models `Dictionary::destroy()` (via `_destroy`): detach both trees. -/
def destroy (d : ConstDictionary) : ConstDictionary :=
  if d.m_keys.isSome then { d with m_keys := none, m_values := none } else d

/-- Models `Dictionary::insert(key, value)`: returns (iterator position,
inserted?) and the resulting state. -/
def insert (a : Allocator) (d : ConstDictionary) (key value : Mixed) :
    (Nat × Bool) × ConstDictionary :=
  let d' := create a d
  match find_first (keyList d') key with
  | none =>
    ((((keyList d').length), true),
      { d' with
        m_keys := some (keyList d' ++ [key])
        m_values := some (valList d' ++ [value]) })
  | some m =>
    ((m, false), { d' with m_values := some ((valList d').set m value) })

/-- Models `Dictionary::erase(key)`.  Note: unlike the other operations it does
not call `update_if_needed`; it works on the cached accessors as they are. -/
def erase (d : ConstDictionary) (key : Mixed) : ConstDictionary :=
  let m := if d.m_keys.isSome then find_first (keyList d) key else none
  match m with
  | some m =>
    { d with
      m_keys := some ((keyList d).eraseIdx m)
      m_values := some ((valList d).eraseIdx m) }
  | none => d

/-- Models `Dictionary::operator[](key)`: the index the returned `MixedRef`
designates, and the resulting state (a missing key is first inserted with
the default `Mixed()`, i.e. null). -/
def index (a : Allocator) (d : ConstDictionary) (key : Mixed) :
    Nat × ConstDictionary :=
  let d' := create a d
  match find_first (keyList d') key with
  | none =>
    let m := size a d'
    (m, (insert a d' key .null).2)
  | some m => (m, d')

/-- Models `Dictionary::clear()`: `if (size() > 0) { m_keys.clear(); m_values.clear(); }`
(`size()` refreshes the handle as a side effect). -/
def clear (a : Allocator) (d : ConstDictionary) : ConstDictionary :=
  let sz := size a d
  let d' := update_if_needed a d
  if sz > 0 then { d' with m_keys := some [], m_values := some [] } else d'

/-- Models `Dictionary::MixedRef::operator Mixed()` (via `_get`). -/
def mixedRefGet (d : ConstDictionary) (ndx : Nat) : Mixed :=
  tree_get (valList d) ndx

/-- Models `Dictionary::MixedRef::operator=(val)` (via `_set`). -/
def mixedRefSet (d : ConstDictionary) (ndx : Nat) (value : Mixed) : ConstDictionary :=
  { d with m_values := some ((valList d).set ndx value) }

end Dictionary

/-- Structural invariant of a dictionary handle: both trees attached or
both detached, equal sizes, and all keys distinct. -/
def DictInv (d : ConstDictionary) : Prop :=
  d.m_keys.isSome = d.m_values.isSome ∧
  d.keyList.length = d.valList.length ∧
  d.keyList.Nodup

/-- The same invariant for the persisted trees behind the parent refs. -/
def AllocInv (a : Allocator) : Prop :=
  a.parent_keys.isSome = a.parent_values.isSome ∧
  (a.parent_keys.getD []).length = (a.parent_values.getD []).length ∧
  (a.parent_keys.getD []).Nodup

/-- A handle is fresh for its environment: both cached version stamps
match the current ones, so `update_if_needed` finds nothing to do. -/
def Fresh (a : Allocator) (d : ConstDictionary) : Prop :=
  d.m_obj_version = a.obj_version ∧ d.m_content_version = a.content_version

instance (d : ConstDictionary) : Decidable (DictInv d) := by
  unfold DictInv; infer_instance

instance (a : Allocator) : Decidable (AllocInv a) := by
  unfold AllocInv; infer_instance

instance (a : Allocator) (d : ConstDictionary) : Decidable (Fresh a d) := by
  unfold Fresh; infer_instance

/-! ## Cluster leaf key recovery (`ClusterNode::get_real_key`, cluster.hpp) -/

/-- Key representation of a cluster leaf.  Modelled from the spec:
`ClusterKeyArray`'s own code is not among the provided sources; per the
spec the *compact* form stores only a row count and the keys are the
implicit sequence `0..n-1`, while the *general* form is an explicit array
of relative (unsigned 64-bit) keys. -/
inductive ClusterKeys where
  | compact (count : Nat)
  | general (keys : List Nat)
deriving DecidableEq, Repr

/-- Modelled from the spec: `ClusterKeyArray::get(ndx)` — the implicit key
`ndx` in compact form, the stored element in general form. -/
def ClusterKeys.get : ClusterKeys → Nat → Nat
  | .compact _, ndx => ndx
  | .general keys, ndx => keys.getD ndx 0

/-- Number of stored keys (row count of the leaf). -/
def ClusterKeys.count : ClusterKeys → Nat
  | .compact n => n
  | .general keys => keys.length

/-- Two's-complement reinterpretation of an unsigned 64-bit value as
`int64_t` (the `ObjKey` payload). -/
def toInt64 (n : Nat) : Int :=
  if n % 2 ^ 64 < 2 ^ 63 then ((n % 2 ^ 64 : Nat) : Int)
  else ((n % 2 ^ 64 : Nat) : Int) - 2 ^ 64

/-- C++ conversion of a signed value to `uint64_t` (reduction mod `2^64`;
`Int.emod` already yields the representative in `[0, 2^64)`). -/
def toUInt64nat (i : Int) : Nat := (i % (2 ^ 64 : Int)).toNat

/-- The fields of `ClusterNode` that key recovery uses: the key array
`m_keys` and the node's offset into the table's key space (`m_offset`,
a `uint64_t`, kept reduced mod `2^64`). -/
structure ClusterNode where
  m_keys : ClusterKeys
  m_offset : Nat
deriving DecidableEq, Repr

/-- Models `ClusterNode::get_key_value(ndx)`: `m_keys.get(ndx)` read back as
`int64_t`. -/
def ClusterNode.get_key_value (c : ClusterNode) (ndx : Nat) : Int :=
  toInt64 (c.m_keys.get ndx)

/-- Models `ClusterNode::get_real_key(ndx)`:
`ObjKey(get_key_value(ndx) + m_offset)`, with the C++ arithmetic
conversions explicit — the `int64_t` operand converts to `uint64_t`, the
addition is mod `2^64`, and the `ObjKey` constructor reinterprets the sum
as `int64_t`. -/
def ClusterNode.get_real_key (c : ClusterNode) (ndx : Nat) : Int :=
  toInt64 ((toUInt64nat (c.get_key_value ndx) + c.m_offset) % 2 ^ 64)

/-! ## Helper lemmas: `find_first` -/

theorem find_first_eq_none_iff (l : List Mixed) (key : Mixed) :
    find_first l key = none ↔ key ∉ l := by
  induction l with
  | nil => simp [find_first]
  | cons x xs ih =>
    by_cases hx : x = key
    · simp [find_first, hx]
    · simp [find_first, hx, Option.map_eq_none', ih]
      intro h
      exact fun he => hx he.symm

theorem find_first_get? (l : List Mixed) (key : Mixed) (m : Nat)
    (h : find_first l key = some m) : l.get? m = some key := by
  induction l generalizing m with
  | nil => simp [find_first] at h
  | cons x xs ih =>
    by_cases hx : x = key
    · simp [find_first, hx] at h
      subst h
      simp [hx]
    · simp [find_first, hx] at h
      obtain ⟨m', hm', rfl⟩ := h
      simpa using ih m' hm'

theorem find_first_lt_length (l : List Mixed) (key : Mixed) (m : Nat)
    (h : find_first l key = some m) : m < l.length := by
  have := find_first_get? l key m h
  exact List.get?_eq_some.mp this |>.1

theorem find_first_append_self (l : List Mixed) (key : Mixed) (h : key ∉ l) :
    find_first (l ++ [key]) key = some l.length := by
  induction l with
  | nil => simp [find_first]
  | cons x xs ih =>
    have hx : x ≠ key := fun he => h (he ▸ List.mem_cons_self x xs)
    have hxs : key ∉ xs := fun hm => h (List.mem_cons_of_mem x hm)
    simp [find_first, hx, ih hxs]

/-! ## Helper lemmas: freshness and `update_if_needed` -/

theorem update_if_needed_of_fresh (a : Allocator) (d : ConstDictionary)
    (h : Fresh a d) : ConstDictionary.update_if_needed a d = d := by
  obtain ⟨h1, h2⟩ := h
  cases d
  simp_all [ConstDictionary.update_if_needed]

theorem fresh_update_if_needed (a : Allocator) (d : ConstDictionary) :
    Fresh a (ConstDictionary.update_if_needed a d) := by
  unfold Fresh ConstDictionary.update_if_needed ConstDictionary.init_from_parent
  dsimp only
  split
  · exact ⟨rfl, rfl⟩
  · next h =>
    push_neg at h
    exact ⟨rfl, h.2.symm⟩

theorem update_if_needed_idem (a : Allocator) (d : ConstDictionary) :
    ConstDictionary.update_if_needed a (ConstDictionary.update_if_needed a d) =
      ConstDictionary.update_if_needed a d :=
  update_if_needed_of_fresh a _ (fresh_update_if_needed a d)

theorem fresh_create (a : Allocator) (d : ConstDictionary) :
    Fresh a (Dictionary.create a d) := by
  unfold Dictionary.create
  have h := fresh_update_if_needed a d
  dsimp only
  split
  · exact h
  · exact ⟨h.1, h.2⟩

theorem create_of_fresh (a : Allocator) (d : ConstDictionary) (h : Fresh a d) :
    Dictionary.create a d =
      if d.m_keys.isSome then d
      else { d with m_keys := some [], m_values := some [] } := by
  unfold Dictionary.create
  rw [update_if_needed_of_fresh a d h]

theorem fresh_insert (a : Allocator) (d : ConstDictionary) (key value : Mixed) :
    Fresh a (Dictionary.insert a d key value).2 := by
  unfold Dictionary.insert
  have h := fresh_create a d
  dsimp only
  split <;> exact ⟨h.1, h.2⟩

theorem size_of_fresh (a : Allocator) (d : ConstDictionary) (h : Fresh a d) :
    ConstDictionary.size a d = d.keyList.length := by
  unfold ConstDictionary.size
  rw [update_if_needed_of_fresh a d h]
  cases hk : d.m_keys <;> simp [ConstDictionary.keyList, hk]

/-! ## Helper lemmas: invariants -/

theorem dictInv_update_if_needed (a : Allocator) (d : ConstDictionary)
    (ha : AllocInv a) (hd : DictInv d) :
    DictInv (ConstDictionary.update_if_needed a d) := by
  unfold ConstDictionary.update_if_needed ConstDictionary.init_from_parent
  dsimp only
  split
  · exact ha
  · exact hd

theorem dictInv_create (a : Allocator) (d : ConstDictionary)
    (ha : AllocInv a) (hd : DictInv d) :
    DictInv (Dictionary.create a d) := by
  unfold Dictionary.create
  have h := dictInv_update_if_needed a d ha hd
  dsimp only
  split
  · exact h
  · exact ⟨rfl, rfl, List.nodup_nil⟩

theorem tree_get_of_get? (l : List Mixed) (n : Nat) (v : Mixed)
    (h : l.get? n = some v) : tree_get l n = v := by
  unfold tree_get
  rw [List.getD_eq_getD_get?, List.get?_eq_getElem?] at *
  rw [h]
  rfl

theorem dictInv_mk0 : DictInv ConstDictionary.mk0 := by
  exact ⟨rfl, rfl, List.nodup_nil⟩

theorem create_attached (a : Allocator) (d : ConstDictionary) :
    (Dictionary.create a d).m_keys.isSome = true := by
  unfold Dictionary.create
  dsimp only
  split
  · assumption
  · rfl

theorem dictInv_insert (a : Allocator) (d : ConstDictionary) (key value : Mixed)
    (ha : AllocInv a) (hd : DictInv d) :
    DictInv (Dictionary.insert a d key value).2 := by
  have h := dictInv_create a d ha hd
  obtain ⟨h1, h2, h3⟩ := h
  cases hfind : find_first (ConstDictionary.keyList (Dictionary.create a d)) key with
  | none =>
    have hmem := (find_first_eq_none_iff _ key).mp hfind
    simp only [Dictionary.insert, hfind]
    refine ⟨rfl, ?_, ?_⟩
    · simp [ConstDictionary.keyList, ConstDictionary.valList] at h2 ⊢
      omega
    · simp [ConstDictionary.keyList] at h3 hmem ⊢
      simp [List.nodup_append, h3, hmem]
  | some m =>
    simp only [Dictionary.insert, hfind]
    refine ⟨?_, ?_, ?_⟩
    · exact create_attached a d
    · simp [ConstDictionary.keyList, ConstDictionary.valList] at h2 ⊢
      cases hk : (Dictionary.create a d).m_keys <;> simp [hk] at h2 ⊢ <;> omega
    · simpa [ConstDictionary.keyList] using h3

theorem dictInv_erase (d : ConstDictionary) (key : Mixed) (hd : DictInv d) :
    DictInv (Dictionary.erase d key) := by
  obtain ⟨h1, h2, h3⟩ := hd
  unfold Dictionary.erase
  dsimp only
  cases hatt : d.m_keys.isSome with
  | false =>
    simp only [hatt, Bool.false_eq_true, if_false]
    exact ⟨h1, h2, h3⟩
  | true =>
    simp only [hatt, if_true]
    cases hfind : find_first d.keyList key with
    | none => exact ⟨h1, h2, h3⟩
    | some m =>
      have hm : m < d.keyList.length := find_first_lt_length _ key m hfind
      refine ⟨rfl, ?_, ?_⟩
      · simp only [ConstDictionary.keyList, ConstDictionary.valList, Option.getD_some]
        have e1 := List.length_eraseIdx_add_one hm
        have hm' : m < d.valList.length := h2 ▸ hm
        have e2 := List.length_eraseIdx_add_one hm'
        simp only [ConstDictionary.keyList, ConstDictionary.valList] at e1 e2 h2
        omega
      · simp only [ConstDictionary.keyList, Option.getD_some]
        exact h3.sublist (List.eraseIdx_sublist _ m)

theorem dictInv_clear (a : Allocator) (d : ConstDictionary)
    (ha : AllocInv a) (hd : DictInv d) :
    DictInv (Dictionary.clear a d) := by
  unfold Dictionary.clear
  have h := dictInv_update_if_needed a d ha hd
  dsimp only
  split
  · exact ⟨rfl, rfl, List.nodup_nil⟩
  · exact h

theorem dictInv_destroy (d : ConstDictionary) (hd : DictInv d) :
    DictInv (Dictionary.destroy d) := by
  unfold Dictionary.destroy
  split
  · exact ⟨rfl, rfl, List.nodup_nil⟩
  · exact hd

theorem dictInv_index (a : Allocator) (d : ConstDictionary) (key : Mixed)
    (ha : AllocInv a) (hd : DictInv d) :
    DictInv (Dictionary.index a d key).2 := by
  have h := dictInv_create a d ha hd
  cases hfind : find_first (ConstDictionary.keyList (Dictionary.create a d)) key with
  | none =>
    simp only [Dictionary.index, hfind]
    exact dictInv_insert a (Dictionary.create a d) key .null ha h
  | some m =>
    simp only [Dictionary.index, hfind]
    exact h

theorem create_keyList (a : Allocator) (d : ConstDictionary) (hf : Fresh a d) :
    (Dictionary.create a d).keyList = d.keyList := by
  rw [create_of_fresh a d hf]
  cases hk : d.m_keys <;> simp [ConstDictionary.keyList, hk]

theorem create_valList (a : Allocator) (d : ConstDictionary) (hf : Fresh a d)
    (hd : DictInv d) : (Dictionary.create a d).valList = d.valList := by
  rw [create_of_fresh a d hf]
  cases hk : d.m_keys with
  | some l => simp [ConstDictionary.valList, hk]
  | none =>
    have h1 := hd.1
    rw [hk] at h1
    cases hv : d.m_values with
    | some l => rw [hv] at h1; simp at h1
    | none => simp [ConstDictionary.valList, hk, hv]

/-! ## Claim theorems -/

/-- C2: every `Dictionary` operation — `create`, `insert`, `erase`,
`operator[]`, `clear`, `destroy` — preserves the invariant that the keys
tree and the values tree have equal size and that all keys in the keys tree
are distinct (the persisted trees a stale handle may reload from are
assumed to satisfy the same invariant). -/
theorem dictionary_ops_preserve_invariant (a : Allocator) (d : ConstDictionary)
    (key value : Mixed) (ha : AllocInv a) (hd : DictInv d) :
    DictInv (Dictionary.create a d) ∧
    DictInv (Dictionary.insert a d key value).2 ∧
    DictInv (Dictionary.erase d key) ∧
    DictInv (Dictionary.index a d key).2 ∧
    DictInv (Dictionary.clear a d) ∧
    DictInv (Dictionary.destroy d) :=
  ⟨dictInv_create a d ha hd, dictInv_insert a d key value ha hd,
   dictInv_erase d key hd, dictInv_index a d key ha hd,
   dictInv_clear a d ha hd, dictInv_destroy d hd⟩

theorem dictionary_ops_preserve_invariant_witness :
    AllocInv ⟨0, 0, none, none⟩ ∧ DictInv ConstDictionary.mk0 ∧
    DictInv (Dictionary.create ⟨0, 0, none, none⟩ ConstDictionary.mk0) :=
  ⟨by decide, by decide,
   (dictionary_ops_preserve_invariant ⟨0, 0, none, none⟩ ConstDictionary.mk0
     (.str "Hello") (.int 9) (by decide) (by decide)).1⟩

/-- C10: at the public interface, `ConstDictionary::is_attached()` returns
the negation of the backing keys tree's attached state: `true` exactly when
the keys tree is not attached (as for a default-constructed handle before
`create()`, or after `destroy()`), and `false` once the backing trees
exist. -/
theorem is_attached_spec (a : Allocator) (d : ConstDictionary) :
    ConstDictionary.is_attached d = !d.m_keys.isSome ∧
    ConstDictionary.is_attached ConstDictionary.mk0 = true ∧
    ConstDictionary.is_attached (Dictionary.create a d) = false ∧
    ConstDictionary.is_attached (Dictionary.destroy (Dictionary.create a d)) = true := by
  refine ⟨rfl, rfl, ?_, ?_⟩
  · unfold ConstDictionary.is_attached
    rw [create_attached a d]
    rfl
  · unfold Dictionary.destroy
    rw [create_attached a d]
    rfl

/-- C1: if `key` is not present, `Dictionary::insert(key, value)` appends
the key to the keys tree and the value to the values tree (after the
existing entries, preserving insertion order) and returns
`inserted = true`; if the key is already present, it overwrites the
existing values slot in place at the key's position, leaves `size()`
unchanged, and returns `inserted = false`. -/
theorem insert_spec (a : Allocator) (d : ConstDictionary) (key value : Mixed)
    (hf : Fresh a d) (hd : DictInv d) :
    (key ∉ d.keyList →
      (Dictionary.insert a d key value).2.keyList = d.keyList ++ [key] ∧
      (Dictionary.insert a d key value).2.valList = d.valList ++ [value] ∧
      (Dictionary.insert a d key value).1 = (d.keyList.length, true) ∧
      ConstDictionary.size a (Dictionary.insert a d key value).2 =
        ConstDictionary.size a d + 1) ∧
    (∀ m, find_first d.keyList key = some m →
      d.keyList.get? m = some key ∧
      (Dictionary.insert a d key value).2.keyList = d.keyList ∧
      (Dictionary.insert a d key value).2.valList = d.valList.set m value ∧
      (Dictionary.insert a d key value).1 = (m, false) ∧
      ConstDictionary.size a (Dictionary.insert a d key value).2 =
        ConstDictionary.size a d) := by
  have hck := create_keyList a d hf
  have hcv := create_valList a d hf hd
  have hfr := fresh_insert a d key value
  have hsd := size_of_fresh a d hf
  have hs2 := size_of_fresh a _ hfr
  constructor
  · intro hmem
    have hfind : find_first (Dictionary.create a d).keyList key = none := by
      rw [hck]; exact (find_first_eq_none_iff _ _).mpr hmem
    have hkey : (Dictionary.insert a d key value).2.keyList = d.keyList ++ [key] := by
      simp only [Dictionary.insert, hfind]
      simp [ConstDictionary.keyList] at hck ⊢
      exact hck
    refine ⟨hkey, ?_, ?_, ?_⟩
    · simp only [Dictionary.insert, hfind]
      simp [ConstDictionary.valList] at hcv ⊢
      exact hcv
    · simp only [Dictionary.insert, hfind]
      rw [hck]
    · rw [hs2, hsd, hkey]
      simp
  · intro m hfind'
    have hfind : find_first (Dictionary.create a d).keyList key = some m := by
      rw [hck]; exact hfind'
    have hkey : (Dictionary.insert a d key value).2.keyList = d.keyList := by
      simp only [Dictionary.insert, hfind]
      simp [ConstDictionary.keyList] at hck ⊢
      exact hck
    refine ⟨find_first_get? _ key m hfind', hkey, ?_, ?_, ?_⟩
    · simp only [Dictionary.insert, hfind]
      simp [ConstDictionary.valList] at hcv ⊢
      rw [hcv]
    · simp only [Dictionary.insert, hfind]
    · rw [hs2, hsd, hkey]

theorem insert_spec_witness :
    Fresh ⟨0, 0, none, none⟩ ConstDictionary.mk0 ∧
    DictInv ConstDictionary.mk0 ∧
    (Mixed.str "Hello" ∉ ConstDictionary.mk0.keyList →
      (Dictionary.insert ⟨0, 0, none, none⟩ ConstDictionary.mk0
        (.str "Hello") (.int 9)).2.keyList =
        ConstDictionary.mk0.keyList ++ [.str "Hello"] ∧
      (Dictionary.insert ⟨0, 0, none, none⟩ ConstDictionary.mk0
        (.str "Hello") (.int 9)).2.valList =
        ConstDictionary.mk0.valList ++ [.int 9] ∧
      (Dictionary.insert ⟨0, 0, none, none⟩ ConstDictionary.mk0
        (.str "Hello") (.int 9)).1 = (ConstDictionary.mk0.keyList.length, true) ∧
      ConstDictionary.size ⟨0, 0, none, none⟩
        (Dictionary.insert ⟨0, 0, none, none⟩ ConstDictionary.mk0
          (.str "Hello") (.int 9)).2 =
        ConstDictionary.size ⟨0, 0, none, none⟩ ConstDictionary.mk0 + 1) :=
  ⟨by decide, by decide,
   (insert_spec ⟨0, 0, none, none⟩ ConstDictionary.mk0 (.str "Hello") (.int 9)
     (by decide) (by decide)).1⟩

/-- C7: `Dictionary::erase(key)` leaves the dictionary completely unchanged
when the key is absent (a no-op, no error); when the key is present it
removes exactly the matching slot from both the keys tree and the values
tree, preserving the relative order of all remaining entries. -/
theorem erase_spec (d : ConstDictionary) (key : Mixed) :
    (key ∉ d.keyList → Dictionary.erase d key = d) ∧
    (∀ m, find_first d.keyList key = some m →
      d.keyList.get? m = some key ∧
      (Dictionary.erase d key).keyList = d.keyList.take m ++ d.keyList.drop (m + 1) ∧
      (Dictionary.erase d key).valList = d.valList.take m ++ d.valList.drop (m + 1)) := by
  constructor
  · intro hmem
    have hfind : find_first d.keyList key = none :=
      (find_first_eq_none_iff _ _).mpr hmem
    unfold Dictionary.erase
    dsimp only
    cases hk : d.m_keys.isSome <;> simp [hk, hfind]
  · intro m hfind
    have hk : d.m_keys.isSome = true := by
      cases hk : d.m_keys with
      | none =>
        rw [ConstDictionary.keyList, hk] at hfind
        simp [find_first] at hfind
      | some l => rfl
    have herase : Dictionary.erase d key =
        { d with
          m_keys := some (d.keyList.eraseIdx m)
          m_values := some (d.valList.eraseIdx m) } := by
      unfold Dictionary.erase
      dsimp only
      rw [hk]
      simp [hfind]
    refine ⟨find_first_get? _ key m hfind, ?_, ?_⟩
    · rw [herase]
      simp only [ConstDictionary.keyList, Option.getD_some]
      exact List.eraseIdx_eq_take_drop_succ _ m
    · rw [herase]
      simp only [ConstDictionary.valList, Option.getD_some]
      exact List.eraseIdx_eq_take_drop_succ _ m

theorem erase_spec_witness :
    (Mixed.str "Goodbye" ∉ ConstDictionary.mk0.keyList →
      Dictionary.erase ConstDictionary.mk0 (.str "Goodbye") = ConstDictionary.mk0) ∧
    (find_first
        (ConstDictionary.keyList
          ⟨some [.str "Hello", .str "Goodbye"], some [.int 9, .int 10], 0, 0⟩)
        (.str "Goodbye") = some 1 →
      (Dictionary.erase
          ⟨some [.str "Hello", .str "Goodbye"], some [.int 9, .int 10], 0, 0⟩
          (.str "Goodbye")).keyList = [.str "Hello"]) :=
  ⟨fun h => ((erase_spec ConstDictionary.mk0 (.str "Goodbye")).1 h),
   fun h => by
    have := ((erase_spec
      ⟨some [.str "Hello", .str "Goodbye"], some [.int 9, .int 10], 0, 0⟩
      (.str "Goodbye")).2 1 h).2.1
    simpa using this⟩

/-- C3: `ConstDictionary::get(key)` first performs the freshness check
(`update_if_needed`) — it behaves exactly as on the refreshed handle — then
throws `std::out_of_range` (here `Except.error "Key not found"`) if and
only if the key is absent from the keys tree; if the key is present it
returns the value stored at the matching position in the values tree. -/
theorem get_spec (a : Allocator) (d : ConstDictionary) (key : Mixed)
    (ha : AllocInv a) (hd : DictInv d) :
    ConstDictionary.get a d key =
      ConstDictionary.get a (ConstDictionary.update_if_needed a d) key ∧
    (ConstDictionary.get a d key = .error "Key not found" ↔
      key ∉ (ConstDictionary.update_if_needed a d).keyList) ∧
    (∀ m, find_first (ConstDictionary.update_if_needed a d).keyList key = some m →
      ∃ v, (ConstDictionary.update_if_needed a d).valList.get? m = some v ∧
        ConstDictionary.get a d key = .ok v) := by
  have hinv : DictInv (ConstDictionary.update_if_needed a d) :=
    dictInv_update_if_needed a d ha hd
  refine ⟨?_, ?_, ?_⟩
  · unfold ConstDictionary.get
    rw [update_if_needed_idem]
  · unfold ConstDictionary.get
    dsimp only
    cases hk : (ConstDictionary.update_if_needed a d).m_keys.isSome with
    | false =>
      have : (ConstDictionary.update_if_needed a d).keyList = [] := by
        unfold ConstDictionary.keyList
        cases hk' : (ConstDictionary.update_if_needed a d).m_keys with
        | none => rfl
        | some l => rw [hk'] at hk; simp at hk
      simp [hk, this]
    | true =>
      simp only [hk, if_true]
      cases hfind : find_first (ConstDictionary.update_if_needed a d).keyList key with
      | none => simp [(find_first_eq_none_iff _ _).mp hfind]
      | some m =>
        simp only
        constructor
        · intro h; exact absurd h (by simp)
        · intro h
          rw [← find_first_eq_none_iff, hfind] at h
          simp at h
  · intro m hfind
    have hk : (ConstDictionary.update_if_needed a d).m_keys.isSome = true := by
      cases hk' : (ConstDictionary.update_if_needed a d).m_keys with
      | none =>
        rw [ConstDictionary.keyList, hk'] at hfind
        simp [find_first] at hfind
      | some l => rfl
    have hm : m < (ConstDictionary.update_if_needed a d).keyList.length :=
      find_first_lt_length _ key m hfind
    have hm' : m < (ConstDictionary.update_if_needed a d).valList.length :=
      hinv.2.1 ▸ hm
    refine ⟨(ConstDictionary.update_if_needed a d).valList.get ⟨m, hm'⟩,
      List.get?_eq_get hm', ?_⟩
    unfold ConstDictionary.get
    dsimp only
    rw [hk]
    simp only [if_true, hfind]
    unfold tree_get
    rw [List.getD_eq_get _ _ hm']

theorem get_spec_witness :
    AllocInv ⟨0, 0, none, none⟩ ∧
    DictInv ⟨some [.str "Hello"], some [.int 9], 0, 0⟩ ∧
    (ConstDictionary.get ⟨0, 0, none, none⟩
        ⟨some [.str "Hello"], some [.int 9], 0, 0⟩ (.str "Missing") =
        .error "Key not found" ↔
      Mixed.str "Missing" ∉
        (ConstDictionary.update_if_needed ⟨0, 0, none, none⟩
          ⟨some [.str "Hello"], some [.int 9], 0, 0⟩).keyList) :=
  ⟨by decide, by decide,
   (get_spec ⟨0, 0, none, none⟩ ⟨some [.str "Hello"], some [.int 9], 0, 0⟩
     (.str "Missing") (by decide) (by decide)).2.1⟩

theorem tree_get_set_self (l : List Mixed) (i : Nat) (v : Mixed)
    (h : i < l.length) : tree_get (l.set i v) i = v := by
  apply tree_get_of_get?
  rw [List.get?_eq_getElem?]
  exact List.getElem?_set_self h

theorem tree_get_concat_length (l : List Mixed) (v : Mixed) :
    tree_get (l ++ [v]) l.length = v := by
  apply tree_get_of_get?
  rw [List.get?_eq_getElem?]
  exact List.getElem?_concat_length l v

theorem create_of_attached (a : Allocator) (d : ConstDictionary) (hf : Fresh a d)
    (hk : d.m_keys.isSome = true) : Dictionary.create a d = d := by
  rw [create_of_fresh a d hf, hk]
  rfl

theorem create_idem (a : Allocator) (d : ConstDictionary) :
    Dictionary.create a (Dictionary.create a d) = Dictionary.create a d :=
  create_of_attached a _ (fresh_create a d) (create_attached a d)

theorem insert_create (a : Allocator) (d : ConstDictionary) (key value : Mixed) :
    Dictionary.insert a (Dictionary.create a d) key value =
      Dictionary.insert a d key value := by
  unfold Dictionary.insert
  rw [create_idem]

theorem get_found (a : Allocator) (d : ConstDictionary) (key : Mixed) (m : Nat)
    (hf : Fresh a d) (hk : d.m_keys.isSome = true)
    (hfind : find_first d.keyList key = some m) :
    ConstDictionary.get a d key = .ok (tree_get d.valList m) := by
  unfold ConstDictionary.get
  dsimp only
  rw [update_if_needed_of_fresh a d hf, hk]
  simp [hfind]

/-- C6: `Dictionary::operator[](key)` returns a settable reference to the
key's value slot; if the key is absent it first inserts the key with a
null value (auto-vivification), so afterwards `size()` has grown by one
and `get(key)` returns null, while for a present key `size()` is
unchanged and the reference designates the existing slot. -/
theorem index_spec (a : Allocator) (d : ConstDictionary) (key : Mixed)
    (hf : Fresh a d) (hd : DictInv d) :
    (key ∉ d.keyList →
      (Dictionary.index a d key).1 = d.keyList.length ∧
      (Dictionary.index a d key).2.keyList = d.keyList ++ [key] ∧
      (Dictionary.index a d key).2.valList = d.valList ++ [.null] ∧
      ConstDictionary.size a (Dictionary.index a d key).2 =
        ConstDictionary.size a d + 1 ∧
      ConstDictionary.get a (Dictionary.index a d key).2 key = .ok .null ∧
      Dictionary.mixedRefGet (Dictionary.index a d key).2
        (Dictionary.index a d key).1 = .null ∧
      (∀ v, ConstDictionary.get a
        (Dictionary.mixedRefSet (Dictionary.index a d key).2
          (Dictionary.index a d key).1 v) key = .ok v)) ∧
    (∀ m, find_first d.keyList key = some m →
      (Dictionary.index a d key).1 = m ∧
      (Dictionary.index a d key).2.keyList = d.keyList ∧
      (Dictionary.index a d key).2.valList = d.valList ∧
      ConstDictionary.size a (Dictionary.index a d key).2 =
        ConstDictionary.size a d ∧
      Dictionary.mixedRefGet (Dictionary.index a d key).2 m =
        tree_get d.valList m ∧
      (∀ v, ConstDictionary.get a
        (Dictionary.mixedRefSet (Dictionary.index a d key).2 m v) key = .ok v)) := by
  have hck := create_keyList a d hf
  have hcv := create_valList a d hf hd
  have hfc := fresh_create a d
  have hsd := size_of_fresh a d hf
  constructor
  · intro hmem
    have hfind : find_first d.keyList key = none :=
      (find_first_eq_none_iff _ _).mpr hmem
    have hfindc : find_first (Dictionary.create a d).keyList key = none := by
      rw [hck]; exact hfind
    have hidx : Dictionary.index a d key =
        (ConstDictionary.size a (Dictionary.create a d),
          (Dictionary.insert a (Dictionary.create a d) key .null).2) := by
      simp only [Dictionary.index, hfindc]
    have hsz : ConstDictionary.size a (Dictionary.create a d) = d.keyList.length := by
      rw [size_of_fresh a _ hfc, hck]
    have hins := (insert_spec a d key .null hf hd).1 hmem
    rw [insert_create a d key .null] at hidx
    have hkey2 : (Dictionary.index a d key).2.keyList = d.keyList ++ [key] := by
      rw [hidx]; exact hins.1
    have hval2 : (Dictionary.index a d key).2.valList = d.valList ++ [.null] := by
      rw [hidx]; exact hins.2.1
    have hfst : (Dictionary.index a d key).1 = d.keyList.length := by
      rw [hidx]; exact hsz
    have hfr2 : Fresh a (Dictionary.index a d key).2 := by
      rw [hidx]; exact fresh_insert a d key .null
    have hk2 : (Dictionary.index a d key).2.m_keys.isSome = true := by
      unfold ConstDictionary.keyList at hkey2
      cases hk' : (Dictionary.index a d key).2.m_keys with
      | none =>
        rw [hk'] at hkey2
        simp at hkey2
      | some l => rfl
    have hfind2 : find_first (Dictionary.index a d key).2.keyList key =
        some d.keyList.length := by
      rw [hkey2]; exact find_first_append_self _ key hmem
    have hlen : d.keyList.length = d.valList.length := hd.2.1
    refine ⟨hfst, hkey2, hval2, ?_, ?_, ?_, ?_⟩
    · rw [size_of_fresh a _ hfr2, hkey2, hsd]
      simp
    · rw [get_found a _ key d.keyList.length hfr2 hk2 hfind2, hval2, hlen,
        tree_get_concat_length]
    · rw [Dictionary.mixedRefGet, hval2, hfst, hlen, tree_get_concat_length]
    · intro v
      have hkey3 : (Dictionary.mixedRefSet (Dictionary.index a d key).2
          (Dictionary.index a d key).1 v).keyList =
          (Dictionary.index a d key).2.keyList := rfl
      have hfr3 : Fresh a (Dictionary.mixedRefSet (Dictionary.index a d key).2
          (Dictionary.index a d key).1 v) := ⟨hfr2.1, hfr2.2⟩
      have hk3 : (Dictionary.mixedRefSet (Dictionary.index a d key).2
          (Dictionary.index a d key).1 v).m_keys.isSome = true := hk2
      have hfind3 : find_first (Dictionary.mixedRefSet (Dictionary.index a d key).2
          (Dictionary.index a d key).1 v).keyList key = some d.keyList.length := by
        rw [hkey3]; exact hfind2
      rw [get_found a _ key d.keyList.length hfr3 hk3 hfind3]
      have hval3 : (Dictionary.mixedRefSet (Dictionary.index a d key).2
          (Dictionary.index a d key).1 v).valList =
          ((Dictionary.index a d key).2.valList).set (Dictionary.index a d key).1 v := by
        unfold Dictionary.mixedRefSet ConstDictionary.valList
        rfl
      rw [hval3, hval2, hfst, hlen,
        tree_get_set_self _ _ v (by simp)]
  · intro m hfind
    have hfindc : find_first (Dictionary.create a d).keyList key = some m := by
      rw [hck]; exact hfind
    have hidx : Dictionary.index a d key = (m, Dictionary.create a d) := by
      simp only [Dictionary.index, hfindc]
    have hm : m < d.keyList.length := find_first_lt_length _ key m hfind
    have hm' : m < d.valList.length := hd.2.1 ▸ hm
    refine ⟨by rw [hidx], by rw [hidx]; exact hck, by rw [hidx]; exact hcv, ?_, ?_, ?_⟩
    · rw [hidx]
      rw [size_of_fresh a _ hfc, hck, hsd]
    · rw [hidx, Dictionary.mixedRefGet, hcv]
    · intro v
      have hfr3 : Fresh a (Dictionary.mixedRefSet (Dictionary.index a d key).2 m v) := by
        rw [hidx]; exact ⟨hfc.1, hfc.2⟩
      have hk3 : (Dictionary.mixedRefSet (Dictionary.index a d key).2 m v).m_keys.isSome =
          true := by
        rw [hidx]; exact create_attached a d
      have hfind3 : find_first (Dictionary.mixedRefSet
          (Dictionary.index a d key).2 m v).keyList key = some m := by
        rw [hidx]
        show find_first (Dictionary.create a d).keyList key = some m
        exact hfindc
      rw [get_found a _ key m hfr3 hk3 hfind3]
      have hval3 : (Dictionary.mixedRefSet (Dictionary.index a d key).2 m v).valList =
          ((Dictionary.index a d key).2.valList).set m v := rfl
      rw [hval3, hidx]
      dsimp only
      rw [hcv, tree_get_set_self _ _ v hm']

theorem index_spec_witness :
    Fresh ⟨0, 0, none, none⟩ ConstDictionary.mk0 ∧
    DictInv ConstDictionary.mk0 ∧
    ConstDictionary.size ⟨0, 0, none, none⟩
      (Dictionary.index ⟨0, 0, none, none⟩ ConstDictionary.mk0 (.str "Goodbye")).2 =
      ConstDictionary.size ⟨0, 0, none, none⟩ ConstDictionary.mk0 + 1 :=
  ⟨by decide, by decide,
   ((index_spec ⟨0, 0, none, none⟩ ConstDictionary.mk0 (.str "Goodbye")
     (by decide) (by decide)).1 (by decide)).2.2.2.1⟩

/-- C4 counterexample: `Dictionary::erase` does not perform the
`update_if_needed` check before accessing the backing trees.  On a stale
handle (cached content version 0, allocator at version 1) whose cached
keys tree holds `1` while the persisted trees hold `2`, erasing key `1`
first-refreshed is a no-op on the reloaded entry, but the code as written
erases the stale cached entry — the two results differ. -/
theorem erase_not_refreshed_cex :
    Dictionary.erase
        (ConstDictionary.update_if_needed ⟨1, 0, some [.int 2], some [.int 20]⟩
          ⟨some [.int 1], some [.int 10], 0, 0⟩) (.int 1) ≠
      Dictionary.erase ⟨some [.int 1], some [.int 10], 0, 0⟩ (.int 1) := by
  decide

theorem create_update (a : Allocator) (d : ConstDictionary) :
    Dictionary.create a (ConstDictionary.update_if_needed a d) =
      Dictionary.create a d := by
  unfold Dictionary.create
  rw [update_if_needed_idem]

/-- C4 (amended): `size`, `get`, `insert`, `operator[]`, `clear` — and
`create` — each perform the `update_if_needed` content-version check before
accessing the backing trees, so each behaves on any handle exactly as on
the first-refreshed handle; `erase` is the exception: it accesses the
trees directly without the check (see the counterexample). -/
theorem refresh_before_access (a : Allocator) (d : ConstDictionary)
    (key value : Mixed) :
    ConstDictionary.size a (ConstDictionary.update_if_needed a d) =
      ConstDictionary.size a d ∧
    ConstDictionary.get a (ConstDictionary.update_if_needed a d) key =
      ConstDictionary.get a d key ∧
    Dictionary.insert a (ConstDictionary.update_if_needed a d) key value =
      Dictionary.insert a d key value ∧
    Dictionary.index a (ConstDictionary.update_if_needed a d) key =
      Dictionary.index a d key ∧
    Dictionary.clear a (ConstDictionary.update_if_needed a d) =
      Dictionary.clear a d ∧
    Dictionary.create a (ConstDictionary.update_if_needed a d) =
      Dictionary.create a d := by
  have hsz : ConstDictionary.size a (ConstDictionary.update_if_needed a d) =
      ConstDictionary.size a d := by
    unfold ConstDictionary.size
    rw [update_if_needed_idem]
  refine ⟨hsz, ?_, ?_, ?_, ?_, create_update a d⟩
  · unfold ConstDictionary.get
    rw [update_if_needed_idem]
  · unfold Dictionary.insert
    rw [create_update]
  · unfold Dictionary.index
    rw [create_update]
  · unfold Dictionary.clear
    rw [update_if_needed_idem, hsz]

theorem eqRange_iff (d1 d2 : ConstDictionary) :
    ∀ count pos, (ConstDictionary.eqRange d1 d2 pos count = true ↔
      ∀ i, i < count →
        ConstDictionary.pairAt d1 (pos + i) = ConstDictionary.pairAt d2 (pos + i))
  | 0, pos => by simp [ConstDictionary.eqRange]
  | c + 1, pos => by
    by_cases h1 : (ConstDictionary.pairAt d1 pos).1 = (ConstDictionary.pairAt d2 pos).1
    · by_cases h2 : (ConstDictionary.pairAt d1 pos).2 = (ConstDictionary.pairAt d2 pos).2
      · have hstep : ConstDictionary.eqRange d1 d2 pos (c + 1) =
            ConstDictionary.eqRange d1 d2 (pos + 1) c := by
          simp [ConstDictionary.eqRange, h1, h2]
        rw [hstep, eqRange_iff d1 d2 c (pos + 1)]
        constructor
        · intro h i hi
          cases i with
          | zero => simpa using Prod.ext h1 h2
          | succ j =>
            have e : pos + (j + 1) = pos + 1 + j := by omega
            rw [e]
            exact h j (Nat.lt_of_succ_lt_succ hi)
        · intro h i hi
          have e : pos + 1 + i = pos + (i + 1) := by omega
          rw [e]
          exact h (i + 1) (Nat.succ_lt_succ hi)
      · have hfalse : ConstDictionary.eqRange d1 d2 pos (c + 1) = false := by
          simp [ConstDictionary.eqRange, h1, h2]
        rw [hfalse]
        constructor
        · intro h; simp at h
        · intro hall
          exfalso
          exact h2 (congrArg Prod.snd (by simpa using hall 0 (Nat.succ_pos c)))
    · have hfalse : ConstDictionary.eqRange d1 d2 pos (c + 1) = false := by
        simp [ConstDictionary.eqRange, h1]
      rw [hfalse]
      constructor
      · intro h; simp at h
      · intro hall
        exfalso
        exact h1 (congrArg Prod.fst (by simpa using hall 0 (Nat.succ_pos c)))

/-- C8: `operator==` returns `true` if and only if the two dictionaries
have the same size and identical key/value pairs at every position in
iteration order (over the refreshed handles); `operator!=` is its exact
negation. -/
theorem beq_spec (a : Allocator) (d1 d2 : ConstDictionary) :
    (ConstDictionary.beq a d1 d2 = true ↔
      (ConstDictionary.size a d1 = ConstDictionary.size a d2 ∧
        ∀ i, i < ConstDictionary.size a d1 →
          ConstDictionary.pairAt (ConstDictionary.update_if_needed a d1) i =
            ConstDictionary.pairAt (ConstDictionary.update_if_needed a d2) i)) ∧
    ConstDictionary.bne a d1 d2 = !ConstDictionary.beq a d1 d2 := by
  refine ⟨?_, rfl⟩
  unfold ConstDictionary.beq
  by_cases hs : ConstDictionary.size a d1 = ConstDictionary.size a d2
  · rw [if_neg (not_not_intro hs),
      eqRange_iff (ConstDictionary.update_if_needed a d1)
        (ConstDictionary.update_if_needed a d2) (ConstDictionary.size a d1) 0]
    simp [hs]
  · rw [if_pos hs]
    simp [hs]

/-- C9: for every cluster node and every valid row index `ndx`, the real
(table-level) object key returned by `ClusterNode::get_real_key(ndx)`
equals the stored relative key at `ndx` plus the node's `m_offset` (the
real key space fits 63 bits, so the unsigned 64-bit addition does not
wrap and recovery is exact integer addition). -/
theorem get_real_key_spec (c : ClusterNode) (ndx : Nat)
    (hvalid : ndx < c.m_keys.count)
    (hrange : c.m_keys.get ndx + c.m_offset < 2 ^ 63) :
    c.get_real_key ndx = (c.m_keys.get ndx : Int) + (c.m_offset : Int) := by
  have hs : c.m_keys.get ndx < 2 ^ 63 := by omega
  have h1 : c.get_key_value ndx = (c.m_keys.get ndx : Int) := by
    unfold ClusterNode.get_key_value toInt64
    rw [Nat.mod_eq_of_lt (by omega)]
    rw [if_pos hs]
  have h2 : toUInt64nat ((c.m_keys.get ndx : Int)) = c.m_keys.get ndx := by
    unfold toUInt64nat
    rw [Int.emod_eq_of_lt (by positivity) (by exact_mod_cast by omega)]
    simp
  unfold ClusterNode.get_real_key
  rw [h1, h2, Nat.mod_eq_of_lt (by omega)]
  unfold toInt64
  rw [Nat.mod_eq_of_lt (by omega), if_pos hrange]
  push_cast
  ring

theorem get_real_key_spec_witness :
    (0 < ClusterKeys.count (.general [5]) ∧
      ClusterKeys.get (.general [5]) 0 + 100 < 2 ^ 63) ∧
    ClusterNode.get_real_key ⟨.general [5], 100⟩ 0 = 105 :=
  ⟨⟨by decide, by decide⟩, by
    have h := get_real_key_spec ⟨.general [5], 100⟩ 0 (by decide) (by decide)
    simpa [ClusterKeys.get] using h⟩

theorem copy_eq (d : ConstDictionary) : ConstDictionary.copy d = d := by
  cases d
  rfl

theorem insert_attached (a : Allocator) (d : ConstDictionary) (key value : Mixed) :
    (Dictionary.insert a d key value).2.m_keys.isSome = true := by
  unfold Dictionary.insert
  dsimp only
  split
  · rfl
  · exact create_attached a d

/-- C5: a dictionary copied via the copy constructor is observationally
independent of the original: after building a dictionary with two entries
and copying it, `clear()` on the original leaves the copy with
`size() == 2` and both key/value pairs intact (and the cleared original at
size 0); conversely, erasing in the copy (size drops to 1) leaves the
cleared original's contents untouched. -/
theorem copy_independent (a : Allocator) (k1 v1 k2 v2 : Mixed)
    (ha : AllocInv a) (hcv : a.content_version = 0) (hov : a.obj_version = 0)
    (hne : k1 ≠ k2) (d : ConstDictionary)
    (hdd : d = (Dictionary.insert a
      (Dictionary.insert a ConstDictionary.mk0 k1 v1).2 k2 v2).2) :
    ConstDictionary.size a (ConstDictionary.copy d) = 2 ∧
    ConstDictionary.get a (ConstDictionary.copy d) k1 = .ok v1 ∧
    ConstDictionary.get a (ConstDictionary.copy d) k2 = .ok v2 ∧
    ConstDictionary.size a (Dictionary.clear a d) = 0 ∧
    (Dictionary.clear a d).keyList = [] ∧
    ConstDictionary.size a (Dictionary.erase (ConstDictionary.copy d) k2) = 1 ∧
    (Dictionary.erase (ConstDictionary.copy d) k2).keyList = [k1] := by
  have hf0 : Fresh a ConstDictionary.mk0 := by
    constructor
    · rw [hov]; rfl
    · rw [hcv]; rfl
  have h1 := (insert_spec a ConstDictionary.mk0 k1 v1 hf0 dictInv_mk0).1
    (by simp [ConstDictionary.mk0, ConstDictionary.keyList])
  have hk1 : (Dictionary.insert a ConstDictionary.mk0 k1 v1).2.keyList = [k1] := by
    have := h1.1
    simpa [ConstDictionary.mk0, ConstDictionary.keyList] using this
  have hv1 : (Dictionary.insert a ConstDictionary.mk0 k1 v1).2.valList = [v1] := by
    have := h1.2.1
    simpa [ConstDictionary.mk0, ConstDictionary.valList] using this
  have hfr1 := fresh_insert a ConstDictionary.mk0 k1 v1
  have hinv1 := dictInv_insert a ConstDictionary.mk0 k1 v1 ha dictInv_mk0
  have hmem2 : k2 ∉ (Dictionary.insert a ConstDictionary.mk0 k1 v1).2.keyList := by
    rw [hk1]
    simp
    exact fun h => hne h.symm
  have h2 := (insert_spec a (Dictionary.insert a ConstDictionary.mk0 k1 v1).2
    k2 v2 hfr1 hinv1).1 hmem2
  have hkd : d.keyList = [k1, k2] := by
    rw [hdd, h2.1, hk1]
    rfl
  have hvd : d.valList = [v1, v2] := by
    rw [hdd, h2.2.1, hv1]
    rfl
  have hfrd : Fresh a d := by rw [hdd]; exact fresh_insert a _ k2 v2
  have hattd : d.m_keys.isSome = true := by rw [hdd]; exact insert_attached a _ k2 v2
  have hfind1 : find_first [k1, k2] k1 = some 0 := by simp [find_first]
  have hfind2 : find_first [k1, k2] k2 = some 1 := by simp [find_first, hne]
  have hsz : ConstDictionary.size a d = 2 := by
    rw [size_of_fresh a d hfrd, hkd]
    rfl
  have hclear : Dictionary.clear a d =
      { d with m_keys := some [], m_values := some [] } := by
    unfold Dictionary.clear
    dsimp only
    rw [update_if_needed_of_fresh a d hfrd, hsz]
    simp
  have hkd' : d.m_keys.getD [] = [k1, k2] := hkd
  have hfrc : Fresh a
      { d with m_keys := some ([] : List Mixed), m_values := some ([] : List Mixed) } :=
    ⟨hfrd.1, hfrd.2⟩
  have he : Dictionary.erase d k2 =
      { d with
        m_keys := some (d.keyList.eraseIdx 1)
        m_values := some (d.valList.eraseIdx 1) } := by
    unfold Dictionary.erase
    dsimp only
    rw [hattd]
    simp only [if_true]
    rw [hkd]
    simp [hfind2, hkd, hvd]
  have hfre : Fresh a
      { d with
        m_keys := some (d.keyList.eraseIdx 1)
        m_values := some (d.valList.eraseIdx 1) } :=
    ⟨hfrd.1, hfrd.2⟩
  refine ⟨?_, ?_, ?_, ?_, ?_, ?_, ?_⟩
  · rw [copy_eq, hsz]
  · rw [copy_eq, get_found a d k1 0 hfrd hattd (by rw [hkd]; exact hfind1), hvd]
    rfl
  · rw [copy_eq, get_found a d k2 1 hfrd hattd (by rw [hkd]; exact hfind2), hvd]
    rfl
  · rw [hclear, size_of_fresh a _ hfrc]
    rfl
  · rw [hclear]
    rfl
  · rw [copy_eq, he, size_of_fresh a _ hfre]
    simp only [ConstDictionary.keyList, Option.getD_some]
    rw [hkd']
    rfl
  · rw [copy_eq, he]
    simp only [ConstDictionary.keyList, Option.getD_some]
    rw [hkd']
    rfl

theorem copy_independent_witness :
    (AllocInv ⟨0, 0, none, none⟩ ∧ Mixed.int 1 ≠ Mixed.int 2) ∧
    ConstDictionary.size ⟨0, 0, none, none⟩
      (ConstDictionary.copy
        (Dictionary.insert ⟨0, 0, none, none⟩
          (Dictionary.insert ⟨0, 0, none, none⟩ ConstDictionary.mk0
            (.int 1) (.int 9)).2 (.int 2) (.int 10)).2) = 2 :=
  ⟨⟨by decide, by decide⟩,
   (copy_independent ⟨0, 0, none, none⟩ (.int 1) (.int 9) (.int 2) (.int 10)
     (by decide) rfl rfl (by decide) _ rfl).1⟩
